import Mathlib

/-!
Verification of the TSS converter pipeline (cell-grid transformations).

The Python sources are shallowly embedded: a cell value is a closed datatype
mirroring the value kinds openpyxl hands back (`None`, `str`, numbers,
datetimes, other objects); a worksheet row is a list of cell values (index 0 is
column A); a worksheet region is a list of rows.  Non-string cell values carry
the string Python's `str()` / `strftime` would produce for them, since that is
the only way the pipeline ever observes them.

Embedded functions keep the names of the Python functions they translate
(`safe_cell_value`, `get_merged_cell_value`, `remove_na_rows`, ...).
Definitions whose name starts with `spec` are NOT translated from the source:
they restate the specification's words and are compared with the source
embeddings by the theorems.
-/

/-- A cell value as seen by openpyxl: `none` is Python `None`, `str` is a
Python string, `num`/`date`/`other` are non-string values carrying the string
form the code converts them to. -/
inductive Value where
  | none : Value
  | str : String → Value
  | num : String → Value
  | date : String → Value
  | other : String → Value
deriving DecidableEq, Repr, Inhabited

/-- Python's `str.strip()`: drop leading and trailing whitespace.  Defined on
the character list so the kernel can evaluate it on literals. -/
def pyStrip (s : String) : String :=
  String.mk (((s.data.dropWhile Char.isWhitespace).reverse.dropWhile Char.isWhitespace).reverse)

/-- Python's `str.upper()` (ASCII case folding). -/
def pyUpper (s : String) : String :=
  String.mk (s.data.map Char.toUpper)

/-- Python's `str.lower()` (ASCII case folding). -/
def pyLower (s : String) : String :=
  String.mk (s.data.map Char.toLower)

/-- Python's `str.split(delim)` for a single-character delimiter: splits at
every occurrence, keeping empty parts. -/
def splitCharsAux (p : Char → Bool) : List Char → List (List Char)
  | [] => [[]]
  | c :: rest =>
    if p c then [] :: splitCharsAux p rest
    else
      match splitCharsAux p rest with
      | [] => [[c]]
      | h :: t => (c :: h) :: t

/-- String wrapper for `splitCharsAux`. -/
def pySplit (s : String) (delim : Char) : List String :=
  (splitCharsAux (fun c => c = delim) s.data).map String.mk

/-- Substring test, Python's `small in big`. -/
def strContains (big small : String) : Bool :=
  decide (small.data <:+: big.data)

/-- The formula-error markers recognised by `safe_cell_value`
(step2_data_extraction.py line 246, step4_data_mapping.py line 188). -/
def formulaErrors : List String :=
  ["#N/A", "#REF!", "#VALUE!", "#DIV/0!", "#NAME?", "#NULL!", "#NUM!", "#ERROR!"]

/-- `safe_cell_value` (step4_data_mapping.py lines 172-207, identical in
step2_data_extraction.py lines 230-271): `None` and strings containing a
formula-error marker become `""`; numbers and datetimes become their canonical
string form; other strings are stripped. -/
def safe_cell_value : Value → String
  | Value.none => ""
  | Value.str s => if formulaErrors.any (fun e => strContains s e) then "" else pyStrip s
  | Value.num s => s
  | Value.date s => s
  | Value.other s => pyStrip s

/-- A merged-cell rectangle, as in `worksheet.merged_cells.ranges`. -/
structure MergedRange where
  min_row : Nat
  max_row : Nat
  min_col : Nat
  max_col : Nat
deriving DecidableEq, Repr

/-- Membership of a (row, col) position in a merged rectangle
(the bounds test at step4_data_mapping.py lines 155-156). -/
def MergedRange.containsCell (mr : MergedRange) (row col : Nat) : Bool :=
  decide (mr.min_row ≤ row ∧ row ≤ mr.max_row ∧ mr.min_col ≤ col ∧ col ≤ mr.max_col)

/-- A worksheet for cell-grid reads: a (row, col)-indexed grid (1-based) plus
its merged ranges. -/
structure Worksheet where
  cells : Nat → Nat → Value
  merged : List MergedRange

/-- `get_merged_cell_value` (step4_data_mapping.py lines 140-170): if the
position falls inside a merged range, read the range's top-left cell, else
read the cell itself; always through `safe_cell_value`. -/
def get_merged_cell_value (ws : Worksheet) (row col : Nat) : String :=
  match ws.merged.find? (fun mr => mr.containsCell row col) with
  | Option.some mr => safe_cell_value (ws.cells mr.min_row mr.min_col)
  | Option.none => safe_cell_value (ws.cells row col)

/-- `combine_columns` (step4_data_mapping.py lines 338-367): merged-cell-aware
reads of the two source columns, joined with the delimiter when both are
non-empty. Columns are passed as 1-based numbers (the Python letters are
converted by `column_index_from_string`). -/
def combine_columns (ws : Worksheet) (row col1 col2 : Nat) (delimiter : String) : String :=
  let str1 := get_merged_cell_value ws row col1
  let str2 := get_merged_cell_value ws row col2
  if str1 ≠ "" ∧ str2 ≠ "" then str1 ++ delimiter ++ str2
  else if str1 ≠ "" then str1
  else if str2 ≠ "" then str2
  else ""

/-- `handle_m_type_combinations` (step4_data_mapping.py lines 252-278): reads
source columns O (15) and P (16) and returns the value written to target
column I — `Option.none` when neither source has a value and no write occurs. -/
def handle_m_type_combinations (source_ws : Worksheet) (source_row : Nat) : Option String :=
  let o_value := get_merged_cell_value source_ws source_row 15
  let p_value := get_merged_cell_value source_ws source_row 16
  if o_value ≠ "" ∧ p_value ≠ "" then Option.some (o_value ++ "-" ++ p_value)
  else if o_value ≠ "" then Option.some o_value
  else if p_value ≠ "" then Option.some p_value
  else Option.none

/-- Restates the spec's combination-entry rule: both sides non-empty → joined
with the delimiter; exactly one non-empty → that value alone; both empty → no
value (destination left blank). -/
def specCombine (v1 v2 delimiter : String) : Option String :=
  if v1 = "" ∧ v2 = "" then Option.none
  else if v1 = "" then Option.some v2
  else if v2 = "" then Option.some v1
  else Option.some (v1 ++ delimiter ++ v2)

theorem find_first_containing (row col : Nat) (mr : MergedRange) :
    ∀ (l : List MergedRange), mr ∈ l → mr.containsCell row col = true →
      (∀ mr' ∈ l, mr'.containsCell row col = true → mr' = mr) →
      l.find? (fun r => r.containsCell row col) = Option.some mr := by
  intro l hmem hin huniq
  induction l with
  | nil => cases hmem
  | cons a t ih =>
    by_cases ha : a.containsCell row col = true
    · have : a = mr := huniq a (List.mem_cons_self a t) ha
      subst this
      simp [List.find?, ha]
    · simp only [List.find?, ha]
      cases List.mem_cons.mp hmem with
      | inl h => exact absurd (h ▸ hin) (h ▸ ha)
      | inr h =>
        exact ih h (fun mr' hm' => huniq mr' (List.mem_cons_of_mem a hm'))

/-- C1: reading any cell position inside a merged range (no other merged range
of the worksheet covering that position) returns exactly the canonical string
value of that range's top-left cell. -/
theorem merged_read_returns_top_left (ws : Worksheet) (mr : MergedRange) (row col : Nat)
    (hmem : mr ∈ ws.merged)
    (hin : mr.containsCell row col = true)
    (huniq : ∀ mr' ∈ ws.merged, mr'.containsCell row col = true → mr' = mr) :
    get_merged_cell_value ws row col = safe_cell_value (ws.cells mr.min_row mr.min_col) := by
  unfold get_merged_cell_value
  rw [find_first_containing row col mr ws.merged hmem hin huniq]

/-- Concrete instance of C1: a 2×3 merged range anchored at (1,1) holding
"TL"; querying the non-top-left position (2,3) yields "TL". -/
theorem merged_read_returns_top_left_witness :
    get_merged_cell_value
      { cells := fun r c => if r = 1 ∧ c = 1 then Value.str "TL" else Value.str "elsewhere",
        merged := [⟨1, 2, 1, 3⟩] } 2 3 = "TL" := by
  have h := merged_read_returns_top_left
    { cells := fun r c => if r = 1 ∧ c = 1 then Value.str "TL" else Value.str "elsewhere",
      merged := [⟨1, 2, 1, 3⟩] } ⟨1, 2, 1, 3⟩ 2 3
    (by simp) (by decide)
    (by intro mr' hm' _; simpa using hm')
  rw [h]
  decide

/-- C8: the M-type combination handler writes exactly what the spec's
combination rule dictates for the two merged-aware source reads (O and P):
joined with "-" when both non-empty, the lone value when one is non-empty, and
nothing (destination left blank) when both are empty.  The underlying
`combine_columns` helper agrees with the same rule, with "" meaning blank. -/
theorem m_type_combination_follows_spec (ws : Worksheet) (row : Nat) :
    handle_m_type_combinations ws row =
      specCombine (get_merged_cell_value ws row 15) (get_merged_cell_value ws row 16) "-" ∧
    ∀ col1 col2 delimiter,
      combine_columns ws row col1 col2 delimiter =
        (specCombine (get_merged_cell_value ws row col1)
          (get_merged_cell_value ws row col2) delimiter).getD "" := by
  constructor
  · unfold handle_m_type_combinations specCombine
    by_cases h1 : get_merged_cell_value ws row 15 = "" <;>
      by_cases h2 : get_merged_cell_value ws row 16 = "" <;>
      simp [h1, h2]
  · intro col1 col2 delimiter
    unfold combine_columns specCombine
    by_cases h1 : get_merged_cell_value ws row col1 = "" <;>
      by_cases h2 : get_merged_cell_value ws row col2 = "" <;>
      simp [h1, h2]

/-! ### Step 4 data fill (step4_data_fill.py) -/

/-- The emptiness test of `fill_column` (step4_data_fill.py lines 94-95):
`None` or a whitespace-only string counts as empty. -/
def fillIsEmpty : Value → Bool
  | Value.none => true
  | Value.str s => pyStrip s = ""
  | _ => false

/-- The body of the `fill_column` loop (step4_data_fill.py lines 89-112) for
the rows after the first: an empty cell whose predecessor (after this pass's
updates) is not `None` is overwritten with that predecessor's value.  `prev`
is the value of the cell immediately above, after processing. -/
def fillFrom (prev : Value) : List Value → List Value
  | [] => []
  | v :: rest =>
    let v2 := if fillIsEmpty v ∧ prev ≠ Value.none then prev else v
    v2 :: fillFrom v2 rest

/-- `fill_column` (step4_data_fill.py lines 70-115) acting on the list of the
target column's cell values from `start_row` to `end_row`: the first row is
never filled (`row > start_row` guard); every later row sees its predecessor's
already-processed value. -/
def fill_column : List Value → List Value
  | [] => []
  | v :: rest => v :: fillFrom v rest

theorem fillFrom_idem (l : List Value) : ∀ prev, fillFrom prev (fillFrom prev l) = fillFrom prev l := by
  induction l with
  | nil => intro prev; rfl
  | cons v rest ih =>
    intro prev
    by_cases hc : fillIsEmpty v = true ∧ prev ≠ Value.none
    · simp only [fillFrom, if_pos hc, ite_self]
      rw [ih prev]
    · simp only [fillFrom, if_neg hc]
      rw [ih v]

/-- C5: the fill-forward fill is idempotent — applying `fill_column` twice to
any column segment yields exactly the cell values of applying it once. -/
theorem fill_column_idempotent (column : List Value) :
    fill_column (fill_column column) = fill_column column := by
  cases column with
  | nil => rfl
  | cons v rest =>
    show v :: fillFrom v (fillFrom v rest) = v :: fillFrom v rest
    rw [fillFrom_idem]

/-! ### Step 2 multi-value cell parsing (step2_data_extraction.py) -/

/-- The trailing-punctuation loop of `clean_value` (step2_data_extraction.py
lines 290-291), on the reversed character list: while the last character is
`;` or `,`, drop it and strip the whitespace this exposes.  The `fuel`
argument only makes the recursion structural (hence kernel-computable); every
iteration consumes at least one character, so starting it at the character
count never exhausts it. -/
def cleanTrailAux : Nat → List Char → List Char
  | _, [] => []
  | 0, l => l
  | fuel + 1, c :: rest =>
    if c = ';' ∨ c = ',' then cleanTrailAux fuel (rest.dropWhile Char.isWhitespace)
    else c :: rest

/-- `clean_value` (step2_data_extraction.py lines 273-293): strip whitespace,
then repeatedly remove trailing `;`/`,` and re-strip. -/
def clean_value (value : String) : String :=
  if value = "" then ""
  else
    let stripped := (pyStrip value).data.reverse
    String.mk ((cleanTrailAux stripped.length stripped).reverse)

/-- One iteration of the delimiter loop of `parse_multi_value_cell`
(step2_data_extraction.py lines 312-320): if the delimiter occurs in the
value, split on it, clean every part, drop empty parts, and accept the split
only when it produced more than one part. -/
def tryDelimiter (value : String) (delim : Char) : Option (List String) :=
  if value.data.contains delim then
    let parts := ((pySplit value delim).map clean_value).filter (fun p => p ≠ "")
    if parts.length > 1 then Option.some parts else Option.none
  else Option.none

/-- `parse_multi_value_cell` (step2_data_extraction.py lines 295-324):
delimiters newline, semicolon, comma tried in that order; the first that
yields more than one non-empty cleaned part wins; otherwise the whole value is
cleaned and returned as a single item (or nothing if it cleans to empty). -/
def parse_multi_value_cell (value : String) : List String :=
  if value = "" then []
  else
    match tryDelimiter value '\n' with
    | Option.some parts => parts
    | Option.none =>
      match tryDelimiter value ';' with
      | Option.some parts => parts
      | Option.none =>
        match tryDelimiter value ',' with
        | Option.some parts => parts
        | Option.none =>
          let cleaned := clean_value value
          if cleaned = "" then [] else [cleaned]

/-- C6 counterexample: on the cell text `"1.Item A;\n2. Item B;"` the
multi-value parsing does NOT yield `["Item A", "Item B"]` — `clean_value`
strips whitespace and trailing punctuation but never removes the leading
`"1."`/`"2."` numbering (that happens only in step 6's article parsing). -/
theorem parse_multi_value_keeps_numbering :
    parse_multi_value_cell "1.Item A;\n2. Item B;" ≠ ["Item A", "Item B"] := by
  decide

/-- C6 (amended): the cell text `"1.Item A;\n2. Item B;"` is split on the
newline into exactly two parts, each trimmed and with trailing punctuation
stripped, the numbering prefixes retained: `["1.Item A", "2. Item B"]`. -/
theorem parse_multi_value_cell_example :
    parse_multi_value_cell "1.Item A;\n2. Item B;" = ["1.Item A", "2. Item B"] := by
  decide

/-! ### Step 6 article cross-reference (step6_article_crossref.py) -/

/-- The whitespace-collapsing substitution `re.sub(r'\s+', ' ', ...)` of
`normalize_article_name` (step6_article_crossref.py line 81).  `fuel` only
makes the recursion structural; every iteration consumes at least one
character, so starting it at the character count never exhausts it. -/
def collapseWsAux : Nat → List Char → List Char
  | _, [] => []
  | 0, l => l
  | fuel + 1, c :: rest =>
    if c.isWhitespace then ' ' :: collapseWsAux fuel (rest.dropWhile Char.isWhitespace)
    else c :: collapseWsAux fuel rest

/-- `normalize_article_name` (step6_article_crossref.py lines 64-83):
lower-case, strip, collapse internal whitespace runs to single spaces. -/
def normalize_article_name (name : String) : String :=
  if name = "" then ""
  else
    let lowered := pyStrip (pyLower name)
    String.mk (collapseWsAux lowered.data.length lowered.data)

/-- The numbering-pattern removal `re.sub(r'^\s*\d+\.\s*', '', line)` of
`parse_article_list` (step6_article_crossref.py lines 120-123): leading
whitespace, one or more digits and a dot, plus following whitespace, are
dropped when the whole pattern matches; otherwise the line is unchanged. -/
def dropNumbering (cs : List Char) : List Char :=
  let rest := cs.dropWhile Char.isWhitespace
  let digits := rest.takeWhile Char.isDigit
  match rest.dropWhile Char.isDigit with
  | '.' :: tl => if digits = [] then cs else tl.dropWhile Char.isWhitespace
  | _ => cs

/-- Python's `rstrip(';,')`: drop the trailing run of semicolons/commas. -/
def rstripPunct (s : String) : String :=
  String.mk ((s.data.reverse.dropWhile (fun c => c = ';' ∨ c = ',')).reverse)

/-- `parse_article_list` (step6_article_crossref.py lines 85-133): split on
newlines then on semicolons, strip each line, drop the numbering prefix and
trailing punctuation, keep the non-empty results. -/
def parse_article_list (cell_value : String) : List String :=
  if cell_value = "" then []
  else
    let lines := (pySplit cell_value '\n').flatMap (fun l => pySplit l ';')
    lines.filterMap (fun line =>
      let l := pyStrip line
      if l = "" then Option.none
      else
        let clean_line := pyStrip (rstripPunct (String.mk (dropNumbering l.data)))
        if clean_line = "" then Option.none else Option.some clean_line)

/-- `find_matches` (step6_article_crossref.py lines 178-210): normalize the
article name; exact dictionary lookup first and, only if it fails, the
substring fallback over all headers.  The header dictionary is modelled as an
association list in insertion order. -/
def find_matches (article_name : String) (article_headers : List (String × Nat)) : List Nat :=
  let normalized := normalize_article_name article_name
  if normalized = "" then []
  else
    match article_headers.lookup normalized with
    | Option.some col => [col]
    | Option.none =>
      article_headers.filterMap (fun p =>
        if strContains p.1 normalized ∨ strContains normalized p.1 then Option.some p.2
        else Option.none)

/-- Restates the spec's fallback rule: every header whose normalized name
contains the parsed name, or is contained in it, is matched. -/
def specSubstringFallback (normalized : String) (article_headers : List (String × Nat)) :
    List Nat :=
  article_headers.filterMap (fun p =>
    if strContains p.1 normalized ∨ strContains normalized p.1 then Option.some p.2
    else Option.none)

/-- C7: match lookup is exact-first (an exact hit returns that single column
and the substring fallback is never consulted), and only on an exact miss
does the two-directional substring containment decide the matches; on the
concrete example, the row cell parses to one article name, its exact lookup
against the normalized header "Case 34x51x28 white" fails, and the substring
fallback marks that header's column (18, column R). -/
theorem crossref_exact_then_substring :
    (∀ (name : String) (headers : List (String × Nat)) (col : Nat),
      normalize_article_name name ≠ "" →
      headers.lookup (normalize_article_name name) = Option.some col →
      find_matches name headers = [col]) ∧
    (∀ (name : String) (headers : List (String × Nat)),
      normalize_article_name name ≠ "" →
      headers.lookup (normalize_article_name name) = Option.none →
      find_matches name headers = specSubstringFallback (normalize_article_name name) headers) ∧
    parse_article_list "1. STUK stor case 34x51x28 white/black AP;" =
      ["STUK stor case 34x51x28 white/black AP"] ∧
    [(normalize_article_name "Case 34x51x28 white", 18)].lookup
      (normalize_article_name "STUK stor case 34x51x28 white/black AP") = Option.none ∧
    find_matches "STUK stor case 34x51x28 white/black AP"
      [(normalize_article_name "Case 34x51x28 white", 18)] = [18] := by
  refine ⟨?_, ?_, by decide, by decide, by decide⟩
  · intro name headers col hne hlook
    unfold find_matches
    simp only [if_neg hne, hlook]
  · intro name headers hne hlook
    unfold find_matches specSubstringFallback
    simp only [if_neg hne, hlook]

/-- Concrete application of C7's general clauses: an exact hit returns just
that column even though the substring fallback would also match, and an exact
miss falls through to the substring scan. -/
theorem crossref_exact_then_substring_witness :
    find_matches "Widget Blue" [("widget blue", 20), ("widget", 21)] = [20] ∧
    find_matches "Widget Red" [("widget", 21)] =
      specSubstringFallback (normalize_article_name "Widget Red") [("widget", 21)] := by
  constructor
  · exact crossref_exact_then_substring.1 "Widget Blue" [("widget blue", 20), ("widget", 21)] 20
      (by decide) (by decide)
  · exact crossref_exact_then_substring.2.1 "Widget Red" [("widget", 21)] (by decide) (by decide)

/-! ### Step 2 vertical extraction (step2_data_extraction.py lines 326-391) -/

/-- The single worksheet column walked by `extract_data_vertical`: hidden
flags (`is_cell_hidden`), cell values, and the worksheet's `max_row`. -/
structure VerticalColumn where
  hidden : Nat → Bool
  value : Nat → Value
  maxRow : Nat

/-- The `while rows_checked < max_rows` loop of `extract_data_vertical`
(step2_data_extraction.py lines 346-384), with the remaining iteration budget
(`max_rows - rows_checked`, initially 1000) as first argument: hidden rows are
skipped (consuming budget), the first non-hidden cell whose safe value is
empty stops the walk, otherwise the parsed items are collected and the walk
continues unless the next row exceeds `max_row + 100`. -/
def extractLoop (col : VerticalColumn) : Nat → Nat → List String
  | 0, _ => []
  | fuel + 1, current_row =>
    if col.hidden current_row then extractLoop col fuel (current_row + 1)
    else
      let value := safe_cell_value (col.value current_row)
      if value = "" then []
      else
        let parsed := parse_multi_value_cell value
        if col.maxRow + 100 < current_row + 1 then parsed
        else parsed ++ extractLoop col fuel (current_row + 1)

/-- `extract_data_vertical` (step2_data_extraction.py lines 326-391): start
one row below the header with a budget of `max_rows = 1000` examined rows. -/
def extract_data_vertical (col : VerticalColumn) (start_row : Nat) : List String :=
  extractLoop col 1000 (start_row + 1)

theorem extractLoop_congr (colA colB : VerticalColumn) (hmax : colA.maxRow = colB.maxRow) :
    ∀ (fuel current_row : Nat),
      (∀ r, current_row ≤ r → r < current_row + fuel →
        colA.hidden r = colB.hidden r ∧ colA.value r = colB.value r) →
      extractLoop colA fuel current_row = extractLoop colB fuel current_row := by
  intro fuel
  induction fuel with
  | zero => intro _ _; rfl
  | succ n ih =>
    intro current_row hagree
    have hcur := hagree current_row (Nat.le_refl _) (by omega)
    have hrest : ∀ r, current_row + 1 ≤ r → r < current_row + 1 + n →
        colA.hidden r = colB.hidden r ∧ colA.value r = colB.value r := by
      intro r h1 h2
      exact hagree r (by omega) (by omega)
    simp only [extractLoop, hcur.1, hcur.2, hmax]
    by_cases hh : colB.hidden current_row
    · simp only [hh, if_pos, ih (current_row + 1) hrest]
    · simp only [hh, if_neg, Bool.false_eq_true, ite_false, ih (current_row + 1) hrest]

theorem extractLoop_stops_at_empty (colA colB : VerticalColumn)
    (hmax : colA.maxRow = colB.maxRow) :
    ∀ (fuel current_row r : Nat), current_row ≤ r →
      colA.hidden r = false → safe_cell_value (colA.value r) = "" →
      (∀ r', current_row ≤ r' → r' ≤ r →
        colA.hidden r' = colB.hidden r' ∧ colA.value r' = colB.value r') →
      extractLoop colA fuel current_row = extractLoop colB fuel current_row := by
  intro fuel
  induction fuel with
  | zero => intro _ _ _ _ _ _; rfl
  | succ n ih =>
    intro current_row r hle hnothid hempty hagree
    have hcur := hagree current_row (Nat.le_refl _) hle
    simp only [extractLoop, hcur.1, hcur.2, hmax]
    by_cases heq : current_row = r
    · subst heq
      rw [hcur.2] at hempty
      simp only [hnothid, hcur.1 ▸ hnothid, Bool.false_eq_true, ite_false, hempty, ite_true]
    · have hlt : current_row < r := Nat.lt_of_le_of_ne hle heq
      have hrest : ∀ r', current_row + 1 ≤ r' → r' ≤ r →
          colA.hidden r' = colB.hidden r' ∧ colA.value r' = colB.value r' := by
        intro r' h1 h2
        exact hagree r' (by omega) h2
      rw [ih (current_row + 1) r hlt hnothid hempty hrest]

/-- C9: vertical extraction is bounded and stops at the first empty cell.
(1) The result depends only on the 1000 rows below the header — two columns
with the same `max_row` that agree (hidden flags and values) on rows
`start_row + 1 .. start_row + 1000` extract identically, so at most 1000 rows
are ever examined and the walk always terminates.  (2) If some row `r` below
the header is non-hidden and its safely-read value is empty (formula-error
markers read as empty), nothing beyond `r` is ever examined: any column
agreeing up to `r` extracts identically. -/
theorem extract_data_vertical_bounded (colA colB : VerticalColumn)
    (hmax : colA.maxRow = colB.maxRow) (start_row : Nat) :
    ((∀ r, start_row + 1 ≤ r → r ≤ start_row + 1000 →
        colA.hidden r = colB.hidden r ∧ colA.value r = colB.value r) →
      extract_data_vertical colA start_row = extract_data_vertical colB start_row) ∧
    (∀ r, start_row + 1 ≤ r →
      colA.hidden r = false → safe_cell_value (colA.value r) = "" →
      (∀ r', start_row + 1 ≤ r' → r' ≤ r →
        colA.hidden r' = colB.hidden r' ∧ colA.value r' = colB.value r') →
      extract_data_vertical colA start_row = extract_data_vertical colB start_row) := by
  constructor
  · intro hagree
    exact extractLoop_congr colA colB hmax 1000 (start_row + 1)
      (fun r h1 h2 => hagree r h1 (by omega))
  · intro r h1 hnothid hempty hagree
    exact extractLoop_stops_at_empty colA colB hmax 1000 (start_row + 1) r h1
      hnothid hempty hagree

/-- A concrete column: all rows visible, "a" everywhere except row 13, which
is empty. -/
def vcolNormal : VerticalColumn :=
  { hidden := fun _ => false,
    value := fun r => if r = 13 then Value.none else Value.str "a",
    maxRow := 50 }

/-- Same as `vcolNormal` below row 2000 but different far outside the 1000-row
examination window. -/
def vcolFar : VerticalColumn :=
  { hidden := fun _ => false,
    value := fun r => if r = 2000 then Value.str "far" else
      if r = 13 then Value.none else Value.str "a",
    maxRow := 50 }

/-- Same as `vcolNormal` up to the empty row 13, different right below it. -/
def vcolBelow : VerticalColumn :=
  { hidden := fun _ => false,
    value := fun r => if r = 13 then Value.none else
      if 14 ≤ r then Value.str "zz" else Value.str "a",
    maxRow := 50 }

/-- Concrete application of C9: starting at header row 10, a change at row
2000 (outside the 1000-row budget) does not affect extraction, and neither
does any change below the first empty row 13. -/
theorem extract_data_vertical_bounded_witness :
    extract_data_vertical vcolNormal 10 = extract_data_vertical vcolFar 10 ∧
    extract_data_vertical vcolNormal 10 = extract_data_vertical vcolBelow 10 := by
  constructor
  · refine (extract_data_vertical_bounded vcolNormal vcolFar rfl 10).1 ?_
    intro r h1 h2
    refine ⟨rfl, ?_⟩
    have hne : r ≠ 2000 := by omega
    simp only [vcolNormal, vcolFar]
    rw [if_neg hne]
  · refine (extract_data_vertical_bounded vcolNormal vcolBelow rfl 10).2 13 (by omega) rfl
      (by decide) ?_
    intro r' h1 h2
    refine ⟨rfl, ?_⟩
    by_cases h13 : r' = 13
    · simp only [vcolNormal, vcolBelow, if_pos h13]
    · have hge : ¬ 14 ≤ r' := by omega
      simp only [vcolNormal, vcolBelow, if_neg h13, if_neg hge]

/-! ### Step 5 filter and deduplicate (step5_filter_deduplicate.py)

The worksheet's data region is modelled as a list of rows: index `i` of the
list is worksheet row `start_row + i` (`start_row = 11`); every operation of
`DataFilter` touches only rows at or below `start_row`, so the header region
is invisible to them.  A row is a list of cell values, index `c - 1` holding
1-based column `c` (B = 2, H = 8, I = 9, J = 10, K = 11, L = 12, M = 13,
N = 14); positions beyond the end of the list are empty cells. -/

/-- A worksheet row of the step-5 data region. -/
abbrev SheetRow := List Value

/-- Read the cell of 1-based column `c` (missing positions are `None`). -/
def getCol (r : SheetRow) (c : Nat) : Value := r.getD (c - 1) Value.none

/-- Write the cell of 1-based column `c`, padding the row as the live
worksheet grid would. -/
def setCol (r : SheetRow) (c : Nat) (v : Value) : SheetRow :=
  let padded := if r.length < c then r ++ List.replicate (c - r.length) Value.none else r
  padded.set (c - 1) v

/-- `is_na_value` (step5_filter_deduplicate.py lines 46-63): `None`, or a
string whose stripped upper-case form is `""`, `"NA"` or `"-"`.  Non-string,
non-`None` values are never NA. -/
def is_na_value : Value → Bool
  | Value.none => true
  | Value.str s => decide (pyUpper (pyStrip s) ∈ (["", "NA", "-"] : List String))
  | _ => false

/-- `get_row_values` (step5_filter_deduplicate.py lines 65-89): per column,
`None` reads as `""`, strings are stripped, anything else is its `str()`
form. -/
def get_row_values (r : SheetRow) (columns : List Nat) : List String :=
  columns.map (fun c =>
    match getCol r c with
    | Value.none => ""
    | Value.str s => pyStrip s
    | Value.num s => s
    | Value.date s => s
    | Value.other s => s)

/-- `self.comparison_columns = ['B','C','D','E','F','I','J']`
(step5_filter_deduplicate.py line 43) as 1-based numbers. -/
def comparisonColumns : List Nat := [2, 3, 4, 5, 6, 9, 10]

/-- `has_meaningful_data` (step5_filter_deduplicate.py lines 91-106): at
least one comparison value is a non-empty, non-whitespace string.  (The
values are the already-stringified tuple of `get_row_values`.) -/
def has_meaningful_data (comparison_values : List String) : Bool :=
  comparison_values.any (fun v => v ≠ "" && pyStrip v ≠ "")

/-- The SD test used by `find_sd_duplicates` (line 164) and
`clear_sd_row_data` (line 244): a string column-H value whose stripped
upper-case form is `"SD"`. -/
def isSDRow (r : SheetRow) : Bool :=
  match getCol r 8 with
  | Value.str s => s ≠ "" && pyUpper (pyStrip s) == "SD"
  | _ => false

/-- The comparison-key tuple of a row over columns B, C, D, E, F, I, J. -/
def rowKey (r : SheetRow) : List String := get_row_values r comparisonColumns

/-- `remove_na_rows` (step5_filter_deduplicate.py lines 108-138): collect the
rows whose column-H value is NA, scanning from the bottom up, then delete
them one by one in that (descending) order. -/
def remove_na_rows (rows : List SheetRow) : List SheetRow :=
  let rows_to_delete := (List.range rows.length).reverse.filter
    (fun i => is_na_value (getCol (rows.getD i []) 8))
  rows_to_delete.foldl (fun rs i => rs.eraseIdx i) rows

/-- One `duplicate_groups[comparison_values].append(row)` step on the
insertion-ordered dictionary (step5_filter_deduplicate.py line 171),
modelled on an association list. -/
def upsertGroup :
    List (List String × List Nat) → List String → Nat → List (List String × List Nat)
  | [], key, i => [(key, [i])]
  | (k, l) :: rest, key, i =>
    if k = key then (k, l ++ [i]) :: rest
    else (k, l) :: upsertGroup rest key i

/-- The grouping loop of `find_sd_duplicates` (lines 161-176) over a list of
row indices: qualifying rows are appended to their key's group. -/
def groupFold (qualifies : Nat → Bool) (keyOf : Nat → List String) (idxs : List Nat) :
    List (List String × List Nat) :=
  idxs.foldl (fun gs i => if qualifies i then upsertGroup gs (keyOf i) i else gs) []

/-- The per-row qualification test of the `find_sd_duplicates` loop (lines
164-170): marked "SD" in column H and a meaningful (not all-blank)
comparison key. -/
def sdQualifies (rows : List SheetRow) (i : Nat) : Bool :=
  isSDRow (rows.getD i []) && has_meaningful_data (rowKey (rows.getD i []))

/-- `find_sd_duplicates` (step5_filter_deduplicate.py lines 140-190): group
the SD rows that have meaningful comparison data by their comparison-key
tuple, then keep only groups with more than one row. -/
def find_sd_duplicates (rows : List SheetRow) : List (List String × List Nat) :=
  (groupFold (sdQualifies rows) (fun i => rowKey (rows.getD i []))
    (List.range rows.length)).filter (fun g => 1 < g.2.length)

/-- The value-collection loop of `determine_common_value` (lines 204-212):
non-empty stripped string cells of the given column across the group. -/
def gatherColumnValues (rows : List SheetRow) (group_rows : List Nat) (c : Nat) :
    List String :=
  group_rows.filterMap (fun i =>
    match getCol (rows.getD i []) c with
    | Value.str s => if s ≠ "" && pyStrip s ≠ "" then Option.some (pyStrip s) else Option.none
    | _ => Option.none)

/-- `Counter(values).most_common(1)[0][0]` (line 218): the first-encountered
value of maximal multiplicity (Python's `Counter`/`nlargest` break count ties
by first insertion, i.e. first occurrence). -/
def mostCommonFirst (values : List String) : String :=
  values.foldl (fun best v => if values.count best < values.count v then v else best)
    (values.headD "")

/-- `determine_common_value` (step5_filter_deduplicate.py lines 192-223). -/
def determine_common_value (rows : List SheetRow) (group_rows : List Nat) (c : Nat) :
    String :=
  let values := gatherColumnValues rows group_rows c
  if values = [] then "Yearly" else mostCommonFirst values

/-- The inner loop of `clear_sd_row_data` (lines 246-249): blank columns K,
L, M (11, 12, 13) of one row. -/
def clearKLM (r : SheetRow) : SheetRow :=
  setCol (setCol (setCol r 11 Value.none) 12 Value.none) 13 Value.none

/-- `clear_sd_row_data` (step5_filter_deduplicate.py lines 225-255): walk all
data rows top to bottom and blank columns K, L, M of every SD row. -/
def clear_sd_row_data (rows : List SheetRow) : List SheetRow :=
  (List.range rows.length).foldl
    (fun rs i => if isSDRow (rs.getD i []) then rs.set i (clearKLM (rs.getD i [])) else rs)
    rows

/-- `deduplicate_sd_rows` (step5_filter_deduplicate.py lines 257-302): for
each duplicate group set column N (14) of the first row to the group's common
value (reads on the current sheet state), then delete all the non-first rows,
sorted bottom-to-top.  `rows_to_delete.sort(reverse=True)` is modelled by a
descending insertion sort — the deleted indices are distinct, so every
descending sort produces the same list. -/
def deduplicate_sd_rows (rows : List SheetRow) : List SheetRow :=
  let duplicate_groups := find_sd_duplicates rows
  let rows2 := duplicate_groups.foldl
    (fun rs g =>
      rs.set (g.2.headD 0)
        (setCol (rs.getD (g.2.headD 0) []) 14 (Value.str (determine_common_value rs g.2 14))))
    rows
  let rows_to_delete :=
    List.insertionSort (fun a b => a ≥ b) (duplicate_groups.flatMap (fun g => g.2.tail))
  rows_to_delete.foldl (fun rs i => rs.eraseIdx i) rows2

/-- The worksheet-transforming part of `process_file`
(step5_filter_deduplicate.py lines 432-443): remove NA rows, clear K/L/M on
all SD rows, then deduplicate.  (The intermediate `find_sd_duplicates` call
at line 437 discards its result.) -/
def step5_filter_pipeline (rows : List SheetRow) : List SheetRow :=
  deduplicate_sd_rows (clear_sd_row_data (remove_na_rows rows))

/-! ### Deletion refinement: bottom-to-top `delete_rows` equals index filtering -/

/-- Restates the spec's deletion semantics: keep exactly the positions whose
index does not satisfy `q` (the rows marked for deletion), in order. -/
def specKeepNot {α : Type} (q : Nat → Bool) : List α → List α
  | [] => []
  | a :: t => (if q 0 then [] else [a]) ++ specKeepNot (fun i => q (i + 1)) t

theorem foldl_eraseIdx_map_succ {α : Type} (ds : List Nat) :
    ∀ (a : α) (t : List α),
      (ds.map Nat.succ).foldl (fun rs i => rs.eraseIdx i) (a :: t) =
        a :: ds.foldl (fun rs i => rs.eraseIdx i) t := by
  induction ds with
  | nil => intro a t; rfl
  | cons d ds' ih =>
    intro a t
    simp only [List.map_cons, List.foldl_cons, List.eraseIdx_cons_succ]
    exact ih a (t.eraseIdx d)

theorem foldl_eraseIdx_reverse_range_filter {α : Type} (l : List α) :
    ∀ (q : Nat → Bool),
      ((List.range l.length).reverse.filter q).foldl (fun rs i => rs.eraseIdx i) l =
        specKeepNot q l := by
  induction l with
  | nil => intro q; rfl
  | cons a t ih =>
    intro q
    have hr : List.range (a :: t).length = 0 :: (List.range t.length).map Nat.succ := by
      simp [List.range_succ_eq_map]
    rw [hr, List.reverse_cons, List.filter_append]
    have hm : ((List.range t.length).map Nat.succ).reverse =
        ((List.range t.length).reverse).map Nat.succ := by
      simp
    rw [hm]
    have hfm : (((List.range t.length).reverse).map Nat.succ).filter q =
        (((List.range t.length).reverse).filter (fun i => q (i + 1))).map Nat.succ := by
      rw [List.filter_map]
      rfl
    rw [hfm, List.foldl_append, foldl_eraseIdx_map_succ, ih]
    by_cases h0 : q 0
    · simp [List.filter, h0, specKeepNot]
    · simp [List.filter, h0, specKeepNot]

theorem specKeepNot_elementwise {α : Type} (l : List α) :
    ∀ (q : Nat → Bool) (p : α → Bool),
      (∀ (i : Nat) (h : i < l.length), q i = p (l.get ⟨i, h⟩)) →
      specKeepNot q l = l.filter (fun x => ! p x) := by
  induction l with
  | nil => intro q p _; rfl
  | cons a t ih =>
    intro q p hpt
    have h0 : q 0 = p a := hpt 0 (by simp)
    have ht : specKeepNot (fun i => q (i + 1)) t = t.filter (fun x => ! p x) :=
      ih (fun i => q (i + 1)) p (fun i h => hpt (i + 1) (by simpa using Nat.succ_lt_succ h))
    show (if q 0 then [] else [a]) ++ specKeepNot (fun i => q (i + 1)) t = _
    rw [h0, ht, List.filter_cons]
    by_cases hp : p a
    · simp [hp]
    · simp [hp]

theorem specKeepNot_mem {α : Type} (l : List α) :
    ∀ (q : Nat → Bool) (i : Nat) (h : i < l.length),
      q i = false → l.get ⟨i, h⟩ ∈ specKeepNot q l := by
  induction l with
  | nil => intro q i h; simp at h
  | cons a t ih =>
    intro q i h hq
    cases i with
    | zero =>
      show a ∈ (if q 0 then [] else [a]) ++ _
      rw [hq]
      simp
    | succ j =>
      have hj : j < t.length := by simpa using Nat.lt_of_succ_lt_succ h
      have := ih (fun i => q (i + 1)) j hj hq
      show (a :: t).get ⟨j + 1, h⟩ ∈ (if q 0 then [] else [a]) ++ _
      simp only [List.get_cons_succ]
      exact List.mem_append_right _ this

theorem sorted_desc_eq_reverse_range_filter (ds : List Nat) (n : Nat)
    (hnd : ds.Nodup) (hlt : ∀ i ∈ ds, i < n) :
    List.insertionSort (fun a b => a ≥ b) ds =
      (List.range n).reverse.filter (fun i => ds.contains i) := by
  have hperm : List.Perm (List.insertionSort (fun a b => a ≥ b) ds)
      ((List.range n).reverse.filter (fun i => ds.contains i)) := by
    refine (List.perm_insertionSort (fun a b => a ≥ b) ds).trans ?_
    have hnd2 : ((List.range n).reverse.filter (fun i => ds.contains i)).Nodup :=
      (List.nodup_reverse.2 (List.nodup_range n)).filter _
    refine (List.perm_ext_iff_of_nodup hnd hnd2).2 ?_
    intro i
    simp only [List.mem_filter, List.mem_reverse, List.mem_range, List.elem_eq_mem,
      decide_eq_true_eq]
    exact ⟨fun h => ⟨hlt i h, h⟩, fun h => h.2⟩
  refine List.eq_of_perm_of_sorted (r := fun a b => a ≥ b) hperm ?_ ?_
  · exact List.sorted_insertionSort (fun a b => a ≥ b) ds
  · refine List.Pairwise.filter _ ?_
    have := List.pairwise_lt_range n
    have hrev : ((List.range n).reverse).Pairwise (fun a b => a > b) := by
      rw [List.pairwise_reverse]
      exact this
    exact hrev.imp (fun h => Nat.le_of_lt h)

theorem foldl_eraseIdx_sorted_desc {α : Type} (l : List α) (ds : List Nat)
    (hnd : ds.Nodup) (hlt : ∀ i ∈ ds, i < l.length) :
    (List.insertionSort (fun a b => a ≥ b) ds).foldl (fun rs i => rs.eraseIdx i) l =
      specKeepNot (fun i => ds.contains i) l := by
  rw [sorted_desc_eq_reverse_range_filter ds l.length hnd hlt,
    foldl_eraseIdx_reverse_range_filter]

/-! ### Grouping characterization: the insertion-ordered dictionary -/

theorem upsertGroup_spec (k : List String) (i : Nat) :
    ∀ (gs : List (List String × List Nat)), (gs.map Prod.fst).Nodup →
      upsertGroup gs k i =
        if k ∈ gs.map Prod.fst
        then gs.map (fun p => if p.1 = k then (p.1, p.2 ++ [i]) else p)
        else gs ++ [(k, [i])] := by
  intro gs
  induction gs with
  | nil => intro _; simp [upsertGroup]
  | cons p rest ih =>
    intro hnd
    obtain ⟨k', l⟩ := p
    by_cases hk : k' = k
    · subst hk
      have hnotin : k' ∉ rest.map Prod.fst := by
        simp only [List.map_cons, List.nodup_cons] at hnd
        exact hnd.1
      have hrest : rest.map (fun p => if p.1 = k' then (p.1, p.2 ++ [i]) else p) = rest := by
        conv_rhs => rw [← List.map_id rest]
        apply List.map_congr_left
        intro q hq
        have hne : q.1 ≠ k' := fun h => hnotin (h ▸ List.mem_map_of_mem Prod.fst hq)
        simp [hne]
      simp [upsertGroup, hrest]
    · have hnd' : (rest.map Prod.fst).Nodup := by
        simp only [List.map_cons, List.nodup_cons] at hnd
        exact hnd.2
      simp only [upsertGroup, if_neg hk, ih hnd', List.map_cons]
      by_cases hmem : k ∈ rest.map Prod.fst
      · rw [if_pos hmem, if_pos (by simp [hmem])]
      · rw [if_neg hmem, if_neg (by simp [hmem, Ne.symm hk])]
        simp

/-- The dictionary invariant of the grouping loop: after processing the index
list `hist`, keys are distinct, each entry holds exactly the qualifying
indices of `hist` bearing its key (in `hist` order), and absent keys have no
qualifying index in `hist`. -/
def tableInv (q : Nat → Bool) (key : Nat → List String) (hist : List Nat)
    (gs : List (List String × List Nat)) : Prop :=
  (gs.map Prod.fst).Nodup ∧
  (∀ p ∈ gs, p.2 = hist.filter (fun j => q j && decide (key j = p.1))) ∧
  (∀ k, k ∉ gs.map Prod.fst → hist.filter (fun j => q j && decide (key j = k)) = [])

theorem tableInv_step (q : Nat → Bool) (key : Nat → List String) (hist : List Nat)
    (gs : List (List String × List Nat)) (i : Nat) (h : tableInv q key hist gs) :
    tableInv q key (hist ++ [i]) (if q i then upsertGroup gs (key i) i else gs) := by
  obtain ⟨hnd, hent, habs⟩ := h
  by_cases hq : q i
  · rw [if_pos hq]
    by_cases hk : key i ∈ gs.map Prod.fst
    · rw [upsertGroup_spec (key i) i gs hnd, if_pos hk]
      have hkeys : (gs.map (fun p => if p.1 = key i then (p.1, p.2 ++ [i]) else p)).map Prod.fst
          = gs.map Prod.fst := by
        rw [List.map_map]
        apply List.map_congr_left
        intro p _
        by_cases hp : p.1 = key i <;> simp [hp]
      refine ⟨hkeys ▸ hnd, ?_, ?_⟩
      · intro p' hp'
        obtain ⟨p, hp, rfl⟩ := List.mem_map.1 hp'
        by_cases hpk : p.1 = key i
        · have hb : (q i && decide (key i = p.1)) = true := by rw [hpk]; simp [hq]
          simp only [if_pos hpk, List.filter_append, ← hent p hp, List.filter_cons, hb,
            List.filter_nil]
          simp
        · have hb : (q i && decide (key i = p.1)) = false := by
            have hne : key i ≠ p.1 := fun h => hpk h.symm
            simp [hne]
          simp only [if_neg hpk, List.filter_append, ← hent p hp, List.filter_cons, hb,
            List.filter_nil, List.append_nil]
          simp
      · intro k hkabs
        rw [hkeys] at hkabs
        have hne : key i ≠ k := fun heq => hkabs (heq ▸ hk)
        have hb : (q i && decide (key i = k)) = false := by simp [hne]
        simp [List.filter_append, habs k hkabs, List.filter_cons, hb]
    · rw [upsertGroup_spec (key i) i gs hnd, if_neg hk]
      refine ⟨?_, ?_, ?_⟩
      · simp only [List.map_append, List.map_cons, List.map_nil]
        rw [List.nodup_append]
        exact ⟨hnd, List.nodup_singleton _, by simpa using fun h => hk h⟩
      · intro p hp
        rcases List.mem_append.1 hp with hp1 | hp2
        · have hne : key i ≠ p.1 := fun heq =>
            hk (heq ▸ List.mem_map_of_mem Prod.fst hp1)
          have hb : (q i && decide (key i = p.1)) = false := by simp [hne]
          simp [List.filter_append, ← hent p hp1, List.filter_cons, hb]
        · have hp2' : p = (key i, [i]) := by simpa using hp2
          subst hp2'
          have hb : (q i && decide (key i = key i)) = true := by simp [hq]
          simp [List.filter_append, habs (key i) hk, List.filter_cons, hb, hq]
      · intro k hkabs
        simp only [List.map_append, List.map_cons, List.map_nil, List.mem_append,
          List.mem_singleton] at hkabs
        push_neg at hkabs
        have hb : (q i && decide (key i = k)) = false := by simp [Ne.symm hkabs.2]
        simp [List.filter_append, habs k hkabs.1, List.filter_cons, hb]
  · rw [if_neg hq]
    refine ⟨hnd, ?_, ?_⟩
    · intro p hp
      have hb : (q i && decide (key i = p.1)) = false := by simp [hq]
      simp [List.filter_append, ← hent p hp, List.filter_cons, hb]
    · intro k hkabs
      have hb : (q i && decide (key i = k)) = false := by simp [hq]
      simp [List.filter_append, habs k hkabs, List.filter_cons, hb]

theorem tableInv_fold (q : Nat → Bool) (key : Nat → List String) :
    ∀ (idxs hist : List Nat) (gs : List (List String × List Nat)),
      tableInv q key hist gs →
      tableInv q key (hist ++ idxs)
        (idxs.foldl (fun gs i => if q i then upsertGroup gs (key i) i else gs) gs) := by
  intro idxs
  induction idxs with
  | nil => intro hist gs h; simpa using h
  | cons i rest ih =>
    intro hist gs h
    have hstep := tableInv_step q key hist gs i h
    have := ih (hist ++ [i]) _ hstep
    simpa [List.append_assoc] using this

theorem tableInv_groupFold (q : Nat → Bool) (key : Nat → List String) (idxs : List Nat) :
    tableInv q key idxs (groupFold q key idxs) := by
  have hbase : tableInv q key [] [] :=
    ⟨List.nodup_nil, fun p hp => absurd hp (List.not_mem_nil p), fun _ _ => rfl⟩
  have := tableInv_fold q key idxs [] [] hbase
  simpa [groupFold] using this

theorem find_sd_duplicates_members (rows : List SheetRow) :
    ∀ g ∈ find_sd_duplicates rows,
      1 < g.2.length ∧
      g.2 = (List.range rows.length).filter
        (fun j => sdQualifies rows j && decide (rowKey (rows.getD j []) = g.1)) := by
  intro g hg
  have hinv := tableInv_groupFold (sdQualifies rows)
    (fun i => rowKey (rows.getD i [])) (List.range rows.length)
  rw [find_sd_duplicates] at hg
  have hg' := List.mem_filter.1 hg
  refine ⟨by simpa using hg'.2, ?_⟩
  exact hinv.2.1 g hg'.1

theorem find_sd_duplicates_keys_nodup (rows : List SheetRow) :
    ((find_sd_duplicates rows).map Prod.fst).Nodup := by
  have hinv := tableInv_groupFold (sdQualifies rows)
    (fun i => rowKey (rows.getD i [])) (List.range rows.length)
  have hsub : List.Sublist (find_sd_duplicates rows)
      (groupFold (sdQualifies rows) (fun i => rowKey (rows.getD i []))
        (List.range rows.length)) := by
    rw [find_sd_duplicates]
    exact List.filter_sublist _
  exact (hinv.1).sublist (hsub.map Prod.fst)

theorem group_member_facts (rows : List SheetRow) (g : List String × List Nat)
    (hg : g ∈ find_sd_duplicates rows) :
    g.2.Pairwise (· < ·) ∧
    (∀ i ∈ g.2, i < rows.length ∧ sdQualifies rows i = true ∧
      rowKey (rows.getD i []) = g.1) := by
  obtain ⟨-, hchar⟩ := find_sd_duplicates_members rows g hg
  constructor
  · rw [hchar]
    exact (List.pairwise_lt_range rows.length).filter _
  · intro i hi
    rw [hchar] at hi
    have := List.mem_filter.1 hi
    refine ⟨List.mem_range.1 this.1, ?_, ?_⟩
    · have h2 := this.2
      simp only [Bool.and_eq_true] at h2
      exact h2.1
    · have h2 := this.2
      simp only [Bool.and_eq_true, decide_eq_true_eq] at h2
      exact h2.2

theorem groups_pairwise_disjoint (rows : List SheetRow) :
    (find_sd_duplicates rows).Pairwise (fun g g' => ∀ i, i ∈ g.2 → i ∉ g'.2) := by
  have hnd := find_sd_duplicates_keys_nodup rows
  have hpw : (find_sd_duplicates rows).Pairwise (fun g g' => g.1 ≠ g'.1) := by
    have := (List.pairwise_map.1 hnd)
    exact this
  refine hpw.imp_of_mem ?_
  intro g g' hg hg' hne i hi hi'
  have h1 := (group_member_facts rows g hg).2 i hi
  have h2 := (group_member_facts rows g' hg').2 i hi'
  exact hne (h1.2.2 ▸ h2.2.2)

/-! ### Cell read/write lemmas -/

theorem setCol_padded_getD (r : SheetRow) (c : Nat) (i : Nat) :
    (if r.length < c then r ++ List.replicate (c - r.length) Value.none else r).getD i
      Value.none = r.getD i Value.none := by
  by_cases hlen : r.length < c
  · rw [if_pos hlen]
    by_cases hi : i < r.length
    · rw [List.getD_eq_getElem?_getD, List.getElem?_append_left hi,
        ← List.getD_eq_getElem?_getD]
    · rw [List.getD_eq_getElem?_getD, List.getElem?_append_right (Nat.le_of_not_lt hi),
        List.getElem?_replicate, List.getD_eq_getElem?_getD]
      have hnone : r[i]? = Option.none := List.getElem?_eq_none (Nat.le_of_not_lt hi)
      rw [hnone]
      by_cases hrep : i - r.length < c - r.length <;> simp [hrep]
  · rw [if_neg hlen]

theorem setCol_padded_length (r : SheetRow) (c : Nat) :
    (if r.length < c then r ++ List.replicate (c - r.length) Value.none else r).length =
      max r.length c := by
  by_cases hlen : r.length < c
  · rw [if_pos hlen]
    simp [Nat.max_eq_right (Nat.le_of_lt hlen)]
    omega
  · rw [if_neg hlen]
    simp [Nat.max_eq_left (Nat.le_of_not_lt hlen)]

theorem getCol_setCol_same (r : SheetRow) (c : Nat) (v : Value) (hc : 1 ≤ c) :
    getCol (setCol r c v) c = v := by
  unfold getCol setCol
  rw [List.getD_eq_getElem?_getD, List.getElem?_set_self, Option.getD_some]
  rw [setCol_padded_length]
  omega

theorem getCol_setCol_ne (r : SheetRow) (c c' : Nat) (v : Value) (hne : c - 1 ≠ c' - 1) :
    getCol (setCol r c v) c' = getCol r c' := by
  unfold getCol setCol
  rw [List.getD_eq_getElem?_getD, List.getElem?_set_ne hne, ← List.getD_eq_getElem?_getD,
    setCol_padded_getD]

theorem setCol_length (r : SheetRow) (c : Nat) (v : Value) :
    (setCol r c v).length = max r.length c := by
  unfold setCol
  rw [List.length_set, setCol_padded_length]

/-! ### C4: NA-row removal -/

/-- Five consecutive data rows whose column-H (indicator) values are
"SD", "", "NA", "-", "X", with distinct column-A markers. -/
def naExampleRows : List SheetRow :=
  [[Value.str "r0", Value.none, Value.none, Value.none, Value.none, Value.none, Value.none,
      Value.str "SD"],
   [Value.str "r1", Value.none, Value.none, Value.none, Value.none, Value.none, Value.none,
      Value.str ""],
   [Value.str "r2", Value.none, Value.none, Value.none, Value.none, Value.none, Value.none,
      Value.str "NA"],
   [Value.str "r3", Value.none, Value.none, Value.none, Value.none, Value.none, Value.none,
      Value.str "-"],
   [Value.str "r4", Value.none, Value.none, Value.none, Value.none, Value.none, Value.none,
      Value.str "X"]]

/-- C4: `remove_na_rows` deletes exactly the rows whose column-H value is NA —
`None`, or a string reading empty / "NA" / "-" after trimming and upper-casing
(deletions are processed bottom-to-top, which the filter equality shows is
index-safe); on indicator values ["SD", "", "NA", "-", "X"] exactly the "SD"
and "X" rows survive. -/
theorem remove_na_rows_spec :
    (∀ rows : List SheetRow,
      remove_na_rows rows = rows.filter (fun r => ! is_na_value (getCol r 8))) ∧
    (∀ v : Value, is_na_value v = true ↔
      (v = Value.none ∨ ∃ s, v = Value.str s ∧
        (pyUpper (pyStrip s) = "" ∨ pyUpper (pyStrip s) = "NA" ∨ pyUpper (pyStrip s) = "-"))) ∧
    remove_na_rows naExampleRows = [naExampleRows.getD 0 [], naExampleRows.getD 4 []] := by
  refine ⟨?_, ?_, by decide⟩
  · intro rows
    unfold remove_na_rows
    rw [foldl_eraseIdx_reverse_range_filter rows
      (fun i => is_na_value (getCol (rows.getD i []) 8))]
    apply specKeepNot_elementwise
    intro i h
    congr 1
    rw [List.getD_eq_getElem?_getD, List.getElem?_eq_getElem h]
    simp
  · intro v
    cases v with
    | none => simp [is_na_value]
    | str s => simp [is_na_value]
    | num s => simp [is_na_value]
    | date s => simp [is_na_value]
    | other s => simp [is_na_value]

/-! ### C10: auxiliary-column clearing on every SD row -/

theorem clear_fold_getD (rows : List SheetRow) :
    ∀ (S : List Nat) (rs : List SheetRow),
      rs.length = rows.length → S.Nodup → (∀ i ∈ S, i < rows.length) →
      (∀ i ∈ S, rs.getD i [] = rows.getD i []) →
      (S.foldl
          (fun rs i => if isSDRow (rs.getD i []) then rs.set i (clearKLM (rs.getD i [])) else rs)
          rs).length = rows.length ∧
      ∀ j, (S.foldl
          (fun rs i => if isSDRow (rs.getD i []) then rs.set i (clearKLM (rs.getD i [])) else rs)
          rs).getD j [] =
        if j ∈ S ∧ isSDRow (rows.getD j []) = true then clearKLM (rows.getD j [])
        else rs.getD j [] := by
  intro S
  induction S with
  | nil =>
    intro rs hlen _ _ _
    exact ⟨hlen, fun j => by simp⟩
  | cons i S' ih =>
    intro rs hlen hnd hbound hagree
    have hiS' : i ∉ S' := (List.nodup_cons.1 hnd).1
    have hilt : i < rows.length := hbound i (List.mem_cons_self i S')
    have hread : rs.getD i [] = rows.getD i [] := hagree i (List.mem_cons_self i S')
    set rs' := if isSDRow (rs.getD i []) then rs.set i (clearKLM (rs.getD i [])) else rs
      with hrs'
    have hlen' : rs'.length = rows.length := by
      rw [hrs']
      by_cases hsd : isSDRow (rs.getD i []) = true
      · rw [if_pos hsd, List.length_set]
        exact hlen
      · rw [if_neg hsd]
        exact hlen
    have hgetne : ∀ j, j ≠ i → rs'.getD j [] = rs.getD j [] := by
      intro j hj
      rw [hrs']
      by_cases hsd : isSDRow (rs.getD i []) = true
      · rw [if_pos hsd, List.getD_eq_getElem?_getD, List.getElem?_set_ne (fun h => hj h.symm),
          ← List.getD_eq_getElem?_getD]
      · rw [if_neg hsd]
    have hgeti : rs'.getD i [] =
        if isSDRow (rows.getD i []) = true then clearKLM (rows.getD i []) else rows.getD i [] := by
      rw [hrs']
      by_cases hsd : isSDRow (rs.getD i []) = true
      · rw [if_pos hsd, List.getD_eq_getElem?_getD,
          List.getElem?_set_self (by omega), Option.getD_some, hread,
          if_pos (hread ▸ hsd)]
      · rw [if_neg hsd, if_neg (hread ▸ hsd), hread]
    have hagree' : ∀ i' ∈ S', rs'.getD i' [] = rows.getD i' [] := by
      intro i' hi'
      rw [hgetne i' (fun h => hiS' (h ▸ hi')), hagree i' (List.mem_cons_of_mem i hi')]
    obtain ⟨hlenf, hchar⟩ := ih rs' hlen' (List.nodup_cons.1 hnd).2
      (fun i' hi' => hbound i' (List.mem_cons_of_mem i hi')) hagree'
    constructor
    · rw [List.foldl_cons, ← hrs']
      exact hlenf
    · intro j
      rw [List.foldl_cons, ← hrs', hchar j]
      by_cases hsd : isSDRow (rows.getD j []) = true
      · by_cases hjS' : j ∈ S'
        · rw [if_pos ⟨hjS', hsd⟩, if_pos ⟨List.mem_cons_of_mem i hjS', hsd⟩]
        · by_cases hji : j = i
          · subst hji
            rw [if_neg (fun h => hjS' h.1), if_pos ⟨List.mem_cons_self j S', hsd⟩, hgeti,
              if_pos hsd]
          · have hjmem : j ∉ i :: S' := by
              intro h
              rcases List.mem_cons.1 h with h1 | h2
              exacts [hji h1, hjS' h2]
            rw [if_neg (fun h => hjS' h.1), if_neg (fun h => hjmem h.1), hgetne j hji]
      · have hc1 : ¬(j ∈ S' ∧ isSDRow (rows.getD j []) = true) := fun h => hsd h.2
        have hc2 : ¬(j ∈ i :: S' ∧ isSDRow (rows.getD j []) = true) := fun h => hsd h.2
        rw [if_neg hc1, if_neg hc2]
        by_cases hji : j = i
        · subst hji
          rw [hgeti, if_neg hsd, hread]
        · exact hgetne j hji

theorem clear_sd_row_data_getD (rows : List SheetRow) :
    (clear_sd_row_data rows).length = rows.length ∧
    ∀ j, (clear_sd_row_data rows).getD j [] =
      if j < rows.length ∧ isSDRow (rows.getD j []) = true then clearKLM (rows.getD j [])
      else rows.getD j [] := by
  have h := clear_fold_getD rows (List.range rows.length) rows rfl (List.nodup_range _)
    (fun i hi => List.mem_range.1 hi) (fun _ _ => rfl)
  unfold clear_sd_row_data
  refine ⟨h.1, ?_⟩
  intro j
  rw [h.2 j]
  by_cases hj : j < rows.length
  · by_cases hsd : isSDRow (rows.getD j []) = true
    · rw [if_pos ⟨List.mem_range.2 hj, hsd⟩, if_pos ⟨hj, hsd⟩]
    · rw [if_neg (fun h => hsd h.2), if_neg (fun h => hsd h.2)]
  · rw [if_neg (fun h => hj (List.mem_range.1 h.1)), if_neg (fun h => hj h.1)]

theorem getCol_clearKLM (r : SheetRow) :
    getCol (clearKLM r) 11 = Value.none ∧ getCol (clearKLM r) 12 = Value.none ∧
    getCol (clearKLM r) 13 = Value.none ∧
    ∀ c, c ∉ ([11, 12, 13] : List Nat) → getCol (clearKLM r) c = getCol r c := by
  unfold clearKLM
  refine ⟨?_, ?_, ?_, ?_⟩
  · rw [getCol_setCol_ne _ _ _ _ (by omega), getCol_setCol_ne _ _ _ _ (by omega),
      getCol_setCol_same _ _ _ (by omega)]
  · rw [getCol_setCol_ne _ _ _ _ (by omega), getCol_setCol_same _ _ _ (by omega)]
  · rw [getCol_setCol_same _ _ _ (by omega)]
  · intro c hc
    simp only [List.mem_cons, List.not_mem_nil, or_false, not_or] at hc
    rw [getCol_setCol_ne _ _ _ _ (by omega), getCol_setCol_ne _ _ _ _ (by omega),
      getCol_setCol_ne _ _ _ _ (by omega)]

/-- C10: the filter stage clears columns K, L and M (and nothing else) on
every data row whose column-H value reads "SD" after trimming and
case-folding — membership in a duplicate group plays no role — leaves
non-SD rows untouched, and runs this clearing before `deduplicate_sd_rows`
in the step-5 pipeline. -/
theorem clear_sd_rows_clears_KLM (rows : List SheetRow) (i : Nat) (hi : i < rows.length) :
    (isSDRow (rows.getD i []) = true →
      getCol ((clear_sd_row_data rows).getD i []) 11 = Value.none ∧
      getCol ((clear_sd_row_data rows).getD i []) 12 = Value.none ∧
      getCol ((clear_sd_row_data rows).getD i []) 13 = Value.none ∧
      ∀ c, c ∉ ([11, 12, 13] : List Nat) →
        getCol ((clear_sd_row_data rows).getD i []) c = getCol (rows.getD i []) c) ∧
    (isSDRow (rows.getD i []) = false →
      (clear_sd_row_data rows).getD i [] = rows.getD i []) ∧
    step5_filter_pipeline rows = deduplicate_sd_rows (clear_sd_row_data (remove_na_rows rows)) := by
  obtain ⟨-, hchar⟩ := clear_sd_row_data_getD rows
  refine ⟨?_, ?_, rfl⟩
  · intro hsd
    rw [hchar i, if_pos ⟨hi, hsd⟩]
    exact getCol_clearKLM (rows.getD i [])
  · intro hsd
    rw [hchar i, if_neg (fun h => by rw [hsd] at h; exact Bool.false_ne_true h.2)]

/-- Two data rows: an SD row (with auxiliary columns K, L, M and summary
column N filled) that belongs to no duplicate group, and a non-SD row. -/
def clearExampleRows : List SheetRow :=
  [[Value.str "a0", Value.str "b0", Value.none, Value.none, Value.none, Value.none, Value.none,
      Value.str "SD", Value.none, Value.none, Value.str "k", Value.str "l", Value.str "m",
      Value.str "n"],
   [Value.str "a1", Value.str "b1", Value.none, Value.none, Value.none, Value.none, Value.none,
      Value.str "X", Value.none, Value.none, Value.str "keep", Value.none, Value.none,
      Value.none]]

/-- Concrete application of C10: the group-free SD row has K, L, M cleared
and its other columns (here N) kept; the non-SD row is untouched. -/
theorem clear_sd_rows_clears_KLM_witness :
    getCol ((clear_sd_row_data clearExampleRows).getD 0 []) 11 = Value.none ∧
    getCol ((clear_sd_row_data clearExampleRows).getD 0 []) 12 = Value.none ∧
    getCol ((clear_sd_row_data clearExampleRows).getD 0 []) 13 = Value.none ∧
    getCol ((clear_sd_row_data clearExampleRows).getD 0 []) 14 =
      getCol (clearExampleRows.getD 0 []) 14 ∧
    (clear_sd_row_data clearExampleRows).getD 1 [] = clearExampleRows.getD 1 [] := by
  have h0 := (clear_sd_rows_clears_KLM clearExampleRows 0 (by decide)).1 (by decide)
  have h1 := (clear_sd_rows_clears_KLM clearExampleRows 1 (by decide)).2.1 (by decide)
  exact ⟨h0.1, h0.2.1, h0.2.2.1, h0.2.2.2 14 (by decide), h1⟩

/-! ### C2/C3: deduplication refinement -/

theorem gatherColumnValues_congr (rs rows : List SheetRow) (idxs : List Nat) (c : Nat)
    (h : ∀ i ∈ idxs, rs.getD i [] = rows.getD i []) :
    gatherColumnValues rs idxs c = gatherColumnValues rows idxs c := by
  unfold gatherColumnValues
  apply List.filterMap_congr
  intro i hi
  rw [h i hi]

theorem determine_common_value_congr (rs rows : List SheetRow) (idxs : List Nat) (c : Nat)
    (h : ∀ i ∈ idxs, rs.getD i [] = rows.getD i []) :
    determine_common_value rs idxs c = determine_common_value rows idxs c := by
  unfold determine_common_value
  rw [gatherColumnValues_congr rs rows idxs c h]

/-- The per-group write of the dedupe loop with all reads on the original
sheet: set column N (14) of the group's first row to the group's common value.
This is the spec's reading ("set a summary column on the kept row to the most
frequent non-empty value across the group"); the refinement theorems show the
stateful loop computes the same thing. -/
def pureNStep (rows : List SheetRow) (rs : List SheetRow) (g : List String × List Nat) :
    List SheetRow :=
  rs.set (g.2.headD 0)
    (setCol (rows.getD (g.2.headD 0) []) 14 (Value.str (determine_common_value rows g.2 14)))

/-- The N-column updates of `deduplicate_sd_rows`, all reads on the original
sheet. -/
def specApplyN (rows : List SheetRow) : List SheetRow :=
  (find_sd_duplicates rows).foldl (pureNStep rows) rows

/-- The rows `deduplicate_sd_rows` deletes: every non-first member of every
duplicate group. -/
def specDeletedRows (rows : List SheetRow) : List Nat :=
  (find_sd_duplicates rows).flatMap (fun g => g.2.tail)

theorem headD_mem {l : List Nat} (h : l ≠ []) : l.headD 0 ∈ l := by
  cases l with
  | nil => exact absurd rfl h
  | cons a t => simp

theorem dedupe_fold_pure (rows : List SheetRow) :
    ∀ (gps : List (List String × List Nat)) (rs : List SheetRow),
      rs.length = rows.length →
      (∀ g ∈ gps, ∀ i ∈ g.2, rs.getD i [] = rows.getD i []) →
      gps.Pairwise (fun g g' => ∀ i, i ∈ g.2 → i ∉ g'.2) →
      (∀ g ∈ gps, g.2 ≠ []) →
      gps.foldl
        (fun rs g => rs.set (g.2.headD 0)
          (setCol (rs.getD (g.2.headD 0) []) 14 (Value.str (determine_common_value rs g.2 14))))
        rs =
      gps.foldl (pureNStep rows) rs := by
  intro gps
  induction gps with
  | nil => intro rs _ _ _ _; rfl
  | cons g gtail ih =>
    intro rs hlen hagree hpw hne
    have hgne : g.2 ≠ [] := hne g (List.mem_cons_self g gtail)
    have hhead : g.2.headD 0 ∈ g.2 := headD_mem hgne
    have hreads : ∀ i ∈ g.2, rs.getD i [] = rows.getD i [] :=
      hagree g (List.mem_cons_self g gtail)
    have hdcv : determine_common_value rs g.2 14 = determine_common_value rows g.2 14 :=
      determine_common_value_congr rs rows g.2 14 hreads
    have hstep : rs.set (g.2.headD 0)
        (setCol (rs.getD (g.2.headD 0) []) 14 (Value.str (determine_common_value rs g.2 14))) =
        pureNStep rows rs g := by
      unfold pureNStep
      rw [hdcv, hreads _ hhead]
    rw [List.foldl_cons, List.foldl_cons, hstep]
    apply ih
    · unfold pureNStep
      rw [List.length_set]
      exact hlen
    · intro g' hg' i hi
      have hdisj := (List.pairwise_cons.1 hpw).1 g' hg'
      have hne2 : g.2.headD 0 ≠ i := fun heq => hdisj (g.2.headD 0) hhead (heq ▸ hi)
      unfold pureNStep
      rw [List.getD_eq_getElem?_getD, List.getElem?_set_ne hne2, ← List.getD_eq_getElem?_getD]
      exact hagree g' (List.mem_cons_of_mem g hg') i hi
    · exact (List.pairwise_cons.1 hpw).2
    · intro g' hg'
      exact hne g' (List.mem_cons_of_mem g hg')

theorem find?_of_unique {α : Type} (p : α → Bool) :
    ∀ (l : List α) (a : α), a ∈ l → p a = true → (∀ b ∈ l, p b = true → b = a) →
      l.find? p = Option.some a := by
  intro l
  induction l with
  | nil => intro a ha; cases ha
  | cons x t ih =>
    intro a ha hpa huniq
    by_cases hx : p x = true
    · have : x = a := huniq x (List.mem_cons_self x t) hx
      subst this
      simp [List.find?, hx]
    · simp only [List.find?, hx]
      rcases List.mem_cons.1 ha with h1 | h2
      · exact absurd (h1 ▸ hpa) (h1 ▸ hx)
      · exact ih a h2 hpa (fun b hb => huniq b (List.mem_cons_of_mem x hb))

theorem pure_fold_getD (rows : List SheetRow) :
    ∀ (gps : List (List String × List Nat)) (rs : List SheetRow),
      rs.length = rows.length →
      (∀ g ∈ gps, g.2.headD 0 < rows.length) →
      gps.Pairwise (fun g g' => g.2.headD 0 ≠ g'.2.headD 0) →
      (gps.foldl (pureNStep rows) rs).length = rows.length ∧
      ∀ j, (gps.foldl (pureNStep rows) rs).getD j [] =
        match gps.find? (fun g => decide (g.2.headD 0 = j)) with
        | Option.some g =>
            setCol (rows.getD j []) 14 (Value.str (determine_common_value rows g.2 14))
        | Option.none => rs.getD j [] := by
  intro gps
  induction gps with
  | nil =>
    intro rs hlen _ _
    exact ⟨hlen, fun j => rfl⟩
  | cons g gtail ih =>
    intro rs hlen hbound hpw
    have hheadlt : g.2.headD 0 < rows.length := hbound g (List.mem_cons_self g gtail)
    have hlen' : (pureNStep rows rs g).length = rows.length := by
      unfold pureNStep
      rw [List.length_set]
      exact hlen
    obtain ⟨hlenf, hchar⟩ := ih (pureNStep rows rs g) hlen'
      (fun g' hg' => hbound g' (List.mem_cons_of_mem g hg'))
      (List.pairwise_cons.1 hpw).2
    refine ⟨by rw [List.foldl_cons]; exact hlenf, ?_⟩
    intro j
    rw [List.foldl_cons, hchar j, List.find?_cons]
    by_cases hj : g.2.headD 0 = j
    · rw [decide_eq_true hj]
      have hnone : gtail.find? (fun g' => decide (g'.2.headD 0 = j)) = Option.none := by
        rw [List.find?_eq_none]
        intro g' hg'
        have hne := (List.pairwise_cons.1 hpw).1 g' hg'
        simp only [decide_eq_true_eq]
        exact fun hc => hne (by rw [hj, hc])
      rw [hnone]
      show (pureNStep rows rs g).getD j [] = _
      unfold pureNStep
      rw [hj, List.getD_eq_getElem?_getD, List.getElem?_set_self (by omega), Option.getD_some]
    · rw [decide_eq_false hj]
      cases hfind : gtail.find? (fun g' => decide (g'.2.headD 0 = j)) with
      | some g' => rfl
      | none =>
        show (pureNStep rows rs g).getD j [] = rs.getD j []
        unfold pureNStep
        rw [List.getD_eq_getElem?_getD, List.getElem?_set_ne hj, ← List.getD_eq_getElem?_getD]

theorem group_nonempty (rows : List SheetRow) (g : List String × List Nat)
    (hg : g ∈ find_sd_duplicates rows) : g.2 ≠ [] := by
  have h := (find_sd_duplicates_members rows g hg).1
  intro hnil
  rw [hnil] at h
  simp at h

theorem group_head_lt (rows : List SheetRow) (g : List String × List Nat)
    (hg : g ∈ find_sd_duplicates rows) : g.2.headD 0 < rows.length :=
  ((group_member_facts rows g hg).2 (g.2.headD 0) (headD_mem (group_nonempty rows g hg))).1

theorem groups_disjoint_symm (rows : List SheetRow) :
    ∀ g ∈ find_sd_duplicates rows, ∀ g' ∈ find_sd_duplicates rows,
      g ≠ g' → ∀ i, i ∈ g.2 → i ∉ g'.2 := by
  have hpw := groups_pairwise_disjoint rows
  have hsymm : Symmetric (fun (g g' : List String × List Nat) => ∀ i, i ∈ g.2 → i ∉ g'.2) := by
    intro g g' h i hi hi'
    exact h i hi' hi
  intro g hg g' hg' hne
  exact hpw.forall hsymm hg hg' hne

theorem heads_pairwise_ne (rows : List SheetRow) :
    (find_sd_duplicates rows).Pairwise (fun g g' => g.2.headD 0 ≠ g'.2.headD 0) := by
  have hpw := groups_pairwise_disjoint rows
  refine hpw.imp_of_mem ?_
  intro g g' hg hg' hdisj heq
  exact hdisj (g.2.headD 0) (headD_mem (group_nonempty rows g hg))
    (heq ▸ headD_mem (group_nonempty rows g' hg'))

theorem group_members_nodup (rows : List SheetRow) (g : List String × List Nat)
    (hg : g ∈ find_sd_duplicates rows) : g.2.Nodup :=
  ((group_member_facts rows g hg).1).imp (fun h => Nat.ne_of_lt h)

theorem specDeletedRows_nodup (rows : List SheetRow) : (specDeletedRows rows).Nodup := by
  unfold specDeletedRows
  rw [List.nodup_flatMap]
  constructor
  · intro g hg
    exact (group_members_nodup rows g hg).sublist (List.tail_sublist g.2)
  · refine (groups_pairwise_disjoint rows).imp_of_mem ?_
    intro g g' _ _ hdisj i hi hi'
    exact hdisj i (List.mem_of_mem_tail hi) (List.mem_of_mem_tail hi')

theorem specDeletedRows_lt (rows : List SheetRow) :
    ∀ i ∈ specDeletedRows rows, i < rows.length := by
  intro i hi
  obtain ⟨g, hg, hitail⟩ := List.mem_flatMap.1 hi
  exact ((group_member_facts rows g hg).2 i (List.mem_of_mem_tail hitail)).1

theorem group_head_not_deleted (rows : List SheetRow) (g : List String × List Nat)
    (hg : g ∈ find_sd_duplicates rows) : g.2.headD 0 ∉ specDeletedRows rows := by
  intro hmem
  obtain ⟨g', hg', htail⟩ := List.mem_flatMap.1 hmem
  by_cases heq : g = g'
  · subst heq
    obtain ⟨a, t, hat⟩ : ∃ a t, g.2 = a :: t := by
      cases hht : g.2 with
      | nil => exact absurd hht (group_nonempty rows g hg)
      | cons a t => exact ⟨a, t, rfl⟩
    have hnd := group_members_nodup rows g hg
    rw [hat] at htail hnd
    simp only [List.headD_cons, hat, List.tail_cons] at htail
    exact (List.nodup_cons.1 hnd).1 htail
  · exact groups_disjoint_symm rows g hg g' hg' heq (g.2.headD 0)
      (headD_mem (group_nonempty rows g hg)) (List.mem_of_mem_tail htail)

theorem group_tail_deleted (rows : List SheetRow) (g : List String × List Nat)
    (hg : g ∈ find_sd_duplicates rows) : ∀ i ∈ g.2.tail, i ∈ specDeletedRows rows := by
  intro i hi
  exact List.mem_flatMap.2 ⟨g, hg, hi⟩

theorem specApplyN_length (rows : List SheetRow) : (specApplyN rows).length = rows.length :=
  (pure_fold_getD rows (find_sd_duplicates rows) rows rfl
    (fun g hg => group_head_lt rows g hg) (heads_pairwise_ne rows)).1

/-- The central refinement: `deduplicate_sd_rows` equals the spec-side
description — update column N of every group's first row (reads on the
original sheet), then keep exactly the rows whose index is not a non-first
member of some duplicate group. -/
theorem deduplicate_sd_rows_eq (rows : List SheetRow) :
    deduplicate_sd_rows rows =
      specKeepNot (fun i => (specDeletedRows rows).contains i) (specApplyN rows) := by
  show (List.insertionSort (fun a b => a ≥ b)
      ((find_sd_duplicates rows).flatMap (fun g => g.2.tail))).foldl
      (fun rs i => rs.eraseIdx i)
      ((find_sd_duplicates rows).foldl
        (fun rs g => rs.set (g.2.headD 0)
          (setCol (rs.getD (g.2.headD 0) []) 14 (Value.str (determine_common_value rs g.2 14))))
        rows) = _
  rw [dedupe_fold_pure rows (find_sd_duplicates rows) rows rfl (fun _ _ _ _ => rfl)
    (groups_pairwise_disjoint rows) (fun g hg => group_nonempty rows g hg)]
  have hlt : ∀ i ∈ (find_sd_duplicates rows).flatMap (fun g => g.2.tail),
      i < ((find_sd_duplicates rows).foldl (pureNStep rows) rows).length := by
    intro i hi
    rw [show (find_sd_duplicates rows).foldl (pureNStep rows) rows = specApplyN rows from rfl,
      specApplyN_length]
    exact specDeletedRows_lt rows i hi
  rw [show (find_sd_duplicates rows).flatMap (fun g => g.2.tail) = specDeletedRows rows
    from rfl] at hlt ⊢
  rw [foldl_eraseIdx_sorted_desc _ _ (specDeletedRows_nodup rows) hlt]
  rfl

theorem foldl_argmax (vs : List String) :
    ∀ (l : List String) (b : String),
      (l.foldl (fun best v => if vs.count best < vs.count v then v else best) b = b ∨
        l.foldl (fun best v => if vs.count best < vs.count v then v else best) b ∈ l) ∧
      vs.count b ≤
        vs.count (l.foldl (fun best v => if vs.count best < vs.count v then v else best) b) ∧
      ∀ v ∈ l, vs.count v ≤
        vs.count (l.foldl (fun best v => if vs.count best < vs.count v then v else best) b) := by
  intro l
  induction l with
  | nil => exact fun b => ⟨Or.inl rfl, Nat.le_refl _, fun v hv => absurd hv (List.not_mem_nil v)⟩
  | cons v l' ih =>
    intro b
    rw [List.foldl_cons]
    obtain ⟨hmem, hble, hall⟩ := ih (if vs.count b < vs.count v then v else b)
    have hb'b : vs.count b ≤ vs.count (if vs.count b < vs.count v then v else b) := by
      by_cases hc : vs.count b < vs.count v
      · rw [if_pos hc]; exact Nat.le_of_lt hc
      · rw [if_neg hc]
    have hb'v : vs.count v ≤ vs.count (if vs.count b < vs.count v then v else b) := by
      by_cases hc : vs.count b < vs.count v
      · rw [if_pos hc]
      · rw [if_neg hc]; exact Nat.le_of_not_lt hc
    refine ⟨?_, Nat.le_trans hb'b hble, ?_⟩
    · rcases hmem with h | h
      · rw [h]
        by_cases hc : vs.count b < vs.count v
        · rw [if_pos hc]; exact Or.inr (List.mem_cons_self v l')
        · rw [if_neg hc]; exact Or.inl rfl
      · exact Or.inr (List.mem_cons_of_mem v h)
    · intro u hu
      rcases List.mem_cons.1 hu with h | h
      · rw [h]
        exact Nat.le_trans hb'v hble
      · exact hall u h

theorem mostCommonFirst_spec (vs : List String) (h : vs ≠ []) :
    mostCommonFirst vs ∈ vs ∧
    ∀ v ∈ vs, vs.count v ≤ vs.count (mostCommonFirst vs) := by
  obtain ⟨a, t, rfl⟩ : ∃ a t, vs = a :: t := by
    cases vs with
    | nil => exact absurd rfl h
    | cons a t => exact ⟨a, t, rfl⟩
  obtain ⟨hmem, -, hall⟩ := foldl_argmax (a :: t) (a :: t) ((a :: t).headD "")
  constructor
  · unfold mostCommonFirst
    rcases hmem with h1 | h1
    · rw [h1]; simp
    · exact h1
  · exact hall

theorem determine_common_value_spec (rows : List SheetRow) (idxs : List Nat) (c : Nat) :
    (gatherColumnValues rows idxs c = [] ∧ determine_common_value rows idxs c = "Yearly") ∨
    (determine_common_value rows idxs c ∈ gatherColumnValues rows idxs c ∧
      ∀ v ∈ gatherColumnValues rows idxs c,
        (gatherColumnValues rows idxs c).count v ≤
          (gatherColumnValues rows idxs c).count (determine_common_value rows idxs c)) := by
  by_cases hvs : gatherColumnValues rows idxs c = []
  · left
    refine ⟨hvs, ?_⟩
    unfold determine_common_value
    rw [if_pos hvs]
  · right
    have h := mostCommonFirst_spec (gatherColumnValues rows idxs c) hvs
    unfold determine_common_value
    rw [if_neg hvs]
    exact h

/-- C2: for every duplicate group — two or more SD-marked rows sharing one
comparison-key tuple over columns B, C, D, E, F, I, J (the group holds exactly
the qualifying rows with that key, in row order) — the dedupe keeps the
group's first row and deletes exactly the non-first rows of all groups
(bottom-to-top deletion being equivalent to index filtering), and column N of
each kept row is set to the most frequent non-empty column-N value across the
group, "Yearly" when no member has one; all other rows keep their content. -/
theorem sd_dedupe_keeps_first_sets_majority (rows : List SheetRow) :
    deduplicate_sd_rows rows =
      specKeepNot (fun i => (specDeletedRows rows).contains i) (specApplyN rows) ∧
    (∀ g ∈ find_sd_duplicates rows,
      1 < g.2.length ∧
      g.2 = (List.range rows.length).filter
        (fun j => sdQualifies rows j && decide (rowKey (rows.getD j []) = g.1)) ∧
      (∀ i ∈ g.2.tail, i ∈ specDeletedRows rows) ∧
      g.2.headD 0 ∉ specDeletedRows rows ∧
      (specApplyN rows).getD (g.2.headD 0) [] =
        setCol (rows.getD (g.2.headD 0) []) 14
          (Value.str (determine_common_value rows g.2 14)) ∧
      ((gatherColumnValues rows g.2 14 = [] ∧
          determine_common_value rows g.2 14 = "Yearly") ∨
        (determine_common_value rows g.2 14 ∈ gatherColumnValues rows g.2 14 ∧
          ∀ v ∈ gatherColumnValues rows g.2 14,
            (gatherColumnValues rows g.2 14).count v ≤
              (gatherColumnValues rows g.2 14).count (determine_common_value rows g.2 14)))) ∧
    ∀ j, j < rows.length → (∀ g ∈ find_sd_duplicates rows, j ≠ g.2.headD 0) →
      (specApplyN rows).getD j [] = rows.getD j [] := by
  have hchar := (pure_fold_getD rows (find_sd_duplicates rows) rows rfl
    (fun g hg => group_head_lt rows g hg) (heads_pairwise_ne rows)).2
  refine ⟨deduplicate_sd_rows_eq rows, ?_, ?_⟩
  · intro g hg
    obtain ⟨hlen2, hmembers⟩ := find_sd_duplicates_members rows g hg
    refine ⟨hlen2, hmembers, group_tail_deleted rows g hg,
      group_head_not_deleted rows g hg, ?_, determine_common_value_spec rows g.2 14⟩
    have hfind : (find_sd_duplicates rows).find?
        (fun g' => decide (g'.2.headD 0 = g.2.headD 0)) = Option.some g := by
      apply find?_of_unique _ _ g hg (decide_eq_true rfl)
      intro b hb hpb
      by_contra hbne
      have hsym : Symmetric
          (fun (g1 g2 : List String × List Nat) => g1.2.headD 0 ≠ g2.2.headD 0) :=
        fun g1 g2 h heq => h heq.symm
      have := (heads_pairwise_ne rows).forall hsym hb hg hbne
      exact this (by simpa using hpb)
    have := hchar (g.2.headD 0)
    rw [hfind] at this
    exact this
  · intro j hj hnohead
    have hfind : (find_sd_duplicates rows).find?
        (fun g' => decide (g'.2.headD 0 = j)) = Option.none := by
      rw [List.find?_eq_none]
      intro g' hg'
      simp only [decide_eq_true_eq]
      exact fun hc => hnohead g' hg' hc.symm
    have := hchar j
    rw [hfind] at this
    exact this

/-- Row builder for the dedupe examples: column B (key), column H
(indicator), column N (summary), with fixed values in I, J, K, L, M. -/
def mkDupRow (b h n : Value) : SheetRow :=
  [Value.none, b, Value.none, Value.none, Value.none, Value.none, Value.none, h,
    Value.str "i", Value.str "j", Value.str "k", Value.str "l", Value.str "m", n]

/-- Four SD rows: rows 0, 2, 3 share the comparison key (B = "x"), row 1 has
its own key; N values "Monthly", "Monthly", "Weekly" in the group. -/
def dupExampleRows : List SheetRow :=
  [mkDupRow (Value.str "x") (Value.str "SD") (Value.str "Monthly"),
   mkDupRow (Value.str "y") (Value.str "SD") Value.none,
   mkDupRow (Value.str "x") (Value.str "SD") (Value.str "Monthly"),
   mkDupRow (Value.str "x") (Value.str "sd ") (Value.str "Weekly")]

/-- Concrete application of C2: in `dupExampleRows` the group with key
B = "x" is rows [0, 2, 3]; rows 2 and 3 are deleted, row 0 is kept with its
column N set from the group, and the ungrouped row 1 is untouched. -/
theorem sd_dedupe_keeps_first_sets_majority_witness :
    (2 : Nat) ∈ specDeletedRows dupExampleRows ∧
    (3 : Nat) ∈ specDeletedRows dupExampleRows ∧
    (0 : Nat) ∉ specDeletedRows dupExampleRows ∧
    (specApplyN dupExampleRows).getD 0 [] =
      setCol (dupExampleRows.getD 0 []) 14
        (Value.str (determine_common_value dupExampleRows [0, 2, 3] 14)) ∧
    (specApplyN dupExampleRows).getD 1 [] = dupExampleRows.getD 1 [] := by
  have h := sd_dedupe_keeps_first_sets_majority dupExampleRows
  have hg := h.2.1 ((["x", "", "", "", "", "i", "j"], [0, 2, 3]) : List String × List Nat)
    (by decide)
  exact ⟨hg.2.2.1 2 (by decide), hg.2.2.1 3 (by decide), hg.2.2.2.1, hg.2.2.2.2.1,
    h.2.2 1 (by decide) (by decide)⟩

/-- C3: an SD-marked row whose comparison-key tuple is entirely empty is in no
duplicate group and is preserved by the dedupe with its content unchanged;
two such rows are never merged — both survive individually. -/
theorem blank_key_sd_rows_preserved (rows : List SheetRow) (i j : Nat)
    (hi : i < rows.length) (hj : j < rows.length) (hij : i ≠ j)
    (hsdi : isSDRow (rows.getD i []) = true) (hsdj : isSDRow (rows.getD j []) = true)
    (hbi : has_meaningful_data (rowKey (rows.getD i [])) = false)
    (hbj : has_meaningful_data (rowKey (rows.getD j [])) = false) :
    (∀ g ∈ find_sd_duplicates rows, i ∉ g.2 ∧ j ∉ g.2) ∧
    i ∉ specDeletedRows rows ∧ j ∉ specDeletedRows rows ∧
    (specApplyN rows).getD i [] = rows.getD i [] ∧
    (specApplyN rows).getD j [] = rows.getD j [] ∧
    deduplicate_sd_rows rows =
      specKeepNot (fun k => (specDeletedRows rows).contains k) (specApplyN rows) ∧
    rows.getD i [] ∈ deduplicate_sd_rows rows ∧
    rows.getD j [] ∈ deduplicate_sd_rows rows := by
  have hnotin : ∀ (k : Nat), has_meaningful_data (rowKey (rows.getD k [])) = false →
      ∀ g ∈ find_sd_duplicates rows, k ∉ g.2 := by
    intro k hbk g hg hkmem
    have hq := ((group_member_facts rows g hg).2 k hkmem).2.1
    unfold sdQualifies at hq
    rw [Bool.and_eq_true] at hq
    rw [hq.2] at hbk
    exact Bool.true_eq_false ▸ hbk ▸ rfl
  have hnotdel : ∀ (k : Nat), has_meaningful_data (rowKey (rows.getD k [])) = false →
      k ∉ specDeletedRows rows := by
    intro k hbk hkmem
    obtain ⟨g, hg, htail⟩ := List.mem_flatMap.1 hkmem
    exact hnotin k hbk g hg (List.mem_of_mem_tail htail)
  have hchar := (pure_fold_getD rows (find_sd_duplicates rows) rows rfl
    (fun g hg => group_head_lt rows g hg) (heads_pairwise_ne rows)).2
  have hunchanged : ∀ (k : Nat), has_meaningful_data (rowKey (rows.getD k [])) = false →
      (specApplyN rows).getD k [] = rows.getD k [] := by
    intro k hbk
    have hfind : (find_sd_duplicates rows).find?
        (fun g' => decide (g'.2.headD 0 = k)) = Option.none := by
      rw [List.find?_eq_none]
      intro g hg
      simp only [decide_eq_true_eq]
      intro hc
      exact hnotin k hbk g hg (hc ▸ headD_mem (group_nonempty rows g hg))
    have := hchar k
    rw [hfind] at this
    exact this
  have hsurv : ∀ (k : Nat), k < rows.length →
      has_meaningful_data (rowKey (rows.getD k [])) = false →
      rows.getD k [] ∈ deduplicate_sd_rows rows := by
    intro k hk hbk
    rw [deduplicate_sd_rows_eq rows]
    have hklen : k < (specApplyN rows).length := by rw [specApplyN_length]; exact hk
    have hq : (fun m => (specDeletedRows rows).contains m) k = false := by
      show (specDeletedRows rows).elem k = false
      rw [List.elem_eq_mem]
      exact decide_eq_false (hnotdel k hbk)
    have hmem := specKeepNot_mem (specApplyN rows)
      (fun m => (specDeletedRows rows).contains m) k hklen hq
    have hval : (specApplyN rows).get ⟨k, hklen⟩ = rows.getD k [] := by
      have h1 : (specApplyN rows).get ⟨k, hklen⟩ = (specApplyN rows).getD k [] := by
        rw [List.getD_eq_getElem?_getD, List.getElem?_eq_getElem hklen]
        simp
      rw [h1, hunchanged k hbk]
    rw [hval] at hmem
    exact hmem
  exact ⟨fun g hg => ⟨hnotin i hbi g hg, hnotin j hbj g hg⟩,
    hnotdel i hbi, hnotdel j hbj, hunchanged i hbi, hunchanged j hbj,
    deduplicate_sd_rows_eq rows, hsurv i hi hbi, hsurv j hj hbj⟩

/-- Two all-blank-key SD rows (distinct only in column A, which is not a
comparison column) next to a meaningful duplicate pair. -/
def blankKeyExampleRows : List SheetRow :=
  [[Value.str "a0", Value.none, Value.none, Value.none, Value.none, Value.none, Value.none,
      Value.str "SD"],
   [Value.str "a1", Value.none, Value.none, Value.none, Value.none, Value.none, Value.none,
      Value.str "SD"],
   mkDupRow (Value.str "x") (Value.str "SD") (Value.str "Monthly"),
   mkDupRow (Value.str "x") (Value.str "SD") (Value.str "Monthly")]

/-- Concrete application of C3: the two all-blank-key SD rows 0 and 1 of
`blankKeyExampleRows` are in no group, not deleted, and both present unchanged
in the dedupe output (while the meaningful pair 2/3 does collapse). -/
theorem blank_key_sd_rows_preserved_witness :
    (0 : Nat) ∉ specDeletedRows blankKeyExampleRows ∧
    (1 : Nat) ∉ specDeletedRows blankKeyExampleRows ∧
    blankKeyExampleRows.getD 0 [] ∈ deduplicate_sd_rows blankKeyExampleRows ∧
    blankKeyExampleRows.getD 1 [] ∈ deduplicate_sd_rows blankKeyExampleRows := by
  have h := blank_key_sd_rows_preserved blankKeyExampleRows 0 1 (by decide) (by decide)
    (by decide) (by decide) (by decide) (by decide) (by decide)
  exact ⟨h.2.1, h.2.2.1, h.2.2.2.2.2.2.1, h.2.2.2.2.2.2.2⟩
